import Mathlib

/-!
# Sticky Bear — verification of the note-model, frame-registry, relay and drag core

A shallow embedding of the core logic of the Sticky Bear side-panel extension:

* the note ordering model of the panel variant in `src/src/content-script.js`
  (class `StickyNotesApp` with an integer `order` field: `addNote`,
  `moveNoteUp`, `moveNoteDown`, `deleteNote`, `updateNoteContent`,
  `updateNoteColor`, `toggleNoteEdit`, the migration step of `loadNotes`,
  `askForUrl`, `mountIframeForNote`);
* the background message relay in `src/src/background.js`
  (`sendToSidePanel` and the `sidepanel-ready` drain);
* the drag-and-drop reorder controller of `src/src/sidepanel/index.js`
  (`dragstart`/`dragend`/`drop` listeners).

JavaScript `Map`s are modelled as association lists, JS strings keep Lean's
`String` type (with executable re-implementations of `trim`/`startsWith` over
the character sequence, since those are the only string primitives the claims
exercise), and the stable `Array.prototype.sort` is modelled by
`List.insertionSort`, which is stable.  Asynchronous persistence (`saveNotes`)
is modelled by a `stored` field updated synchronously, which is faithful to the
single-threaded event model described in the spec.
-/

namespace StickyBear

/-- ASCII whitespace as tested by JavaScript `String.prototype.trim`
(restricted to the whitespace characters that can occur here). -/
def jsWs (c : Char) : Bool := c = ' ' || c = '\t' || c = '\n' || c = '\r'

/-- Executable model of JavaScript `String.prototype.trim`: drop leading and
trailing whitespace from the character sequence. -/
def jsTrim (s : String) : String :=
  ⟨((s.data.dropWhile jsWs).reverse.dropWhile jsWs).reverse⟩

/-- Executable model of JavaScript `String.prototype.startsWith`. -/
def jsStartsWith (s p : String) : Bool := p.data.isPrefixOf s.data

/-- A persisted sticky-note record (see `addNote` in the panel source).
`order = none` models a record whose `order` field is not a number
(the `typeof note.order !== 'number'` test of the migration in `loadNotes`);
`iframeHeight = none` models `undefined`. -/
structure Note where
  id : String
  content : String
  color : String
  createdAt : String
  isEditing : Bool
  url : String
  iframeHeight : Option Int
  order : Option Int
deriving DecidableEq, Repr

/-- JS `note.order || 0`: a missing `order` reads as `0` (and `0` reads as
`0`), exactly `Option.getD`. -/
def orderD (n : Note) : Int := n.order.getD 0

/-- JS `<` on two possibly-absent `order` fields: any comparison with
`undefined` is false. -/
def olt (a b : Option Int) : Bool :=
  match a, b with
  | some x, some y => decide (x < y)
  | _, _ => false

/-- A live iframe handle as the panel configures it in `mountIframeForNote`.
`navCount` counts the assignments to `iframe.src`; every such assignment makes
the browser (re)navigate the frame, so an unchanged `navCount` means no forced
reload. -/
structure Frame where
  name : String
  src : String
  navCount : Nat
deriving DecidableEq, Repr

/-- A JS `Map` with string keys, modelled as an association list.  `mset`
updates an existing key in place or appends a new binding, mirroring
`Map.prototype.set`; keys stay unique when starting from `∅`. -/
abbrev SMap (α : Type) := List (String × α)

/-- `Map.prototype.get` (`none` for `undefined`). -/
def mget {α : Type} (m : SMap α) (k : String) : Option α :=
  (m.find? (fun kv => kv.1 == k)).map (fun kv => kv.2)

/-- `Map.prototype.set`. -/
def mset {α : Type} (m : SMap α) (k : String) (v : α) : SMap α :=
  match m with
  | [] => [(k, v)]
  | kv :: rest => if kv.1 == k then (k, v) :: rest else kv :: mset rest k v

/-- `Map.prototype.delete`. -/
def mdel {α : Type} (m : SMap α) (k : String) : SMap α :=
  m.filter (fun kv => !(kv.1 == k))

/-- `Map.prototype.size`. -/
def msize {α : Type} (m : SMap α) : Nat := m.length

/-- The app state of the ordering-model panel variant (`StickyNotesApp`
fields): the in-memory note collection, the three frame-registry maps, the
last collection written to storage by `saveNotes` (`stored`), and a counter
supplying fresh identities for newly constructed `ResizeObserver`s
(`nextToken`). -/
structure AppState where
  notes : List Note
  iframeMap : SMap Frame
  iframeResizeObservers : SMap Nat
  iframeResizeTimers : SMap Nat
  stored : List Note
  nextToken : Nat
deriving DecidableEq, Repr

/-- `saveNotes`: persist the in-memory collection.  The storage write is
modelled by the `stored` field; the badge notification has no model-visible
effect. -/
def saveNotes (s : AppState) : AppState := { s with stored := s.notes }

/-- JS `Array.prototype.find` together with the position of the found object.
JS returns the object by reference and later mutates it in place; the index
makes that reference explicit.  The index component alone is
`Array.prototype.findIndex` (with `none` for `-1`). -/
def findWithIdx (p : Note → Bool) : List Note → Option (Nat × Note)
  | [] => none
  | n :: ns =>
      if p n then some (0, n)
      else (findWithIdx p ns).map (fun im => (im.1 + 1, im.2))

/-- The migration loop of `loadNotes`: a note whose `order` is not a number
receives the order equal to its index in the loaded sequence. -/
def migrateNotes (notes : List Note) : List Note :=
  List.mapIdx
    (fun i n => if n.order.isNone then { n with order := some (i : Int) } else n)
    notes

/-- The `needsSave` flag computed by the migration loop of `loadNotes`. -/
def migrateNeedsSave (notes : List Note) : Bool :=
  notes.any (fun n => n.order.isNone)

/-- The full migration step of `loadNotes`: the migrated collection together
with the persist-required signal. -/
def migrate (notes : List Note) : List Note × Bool :=
  (migrateNotes notes, migrateNeedsSave notes)

/-- The fresh note built by `addNote` (`newId` and `newCreatedAt` stand for
`Date.now().toString()` and `new Date().toISOString()`). -/
def mkNewNote (newId newCreatedAt : String) : Note :=
  { id := newId, content := "", color := "yellow", createdAt := newCreatedAt,
    isEditing := true, url := "", iframeHeight := none, order := some 0 }

/-- `addNote` — the `insertAtTop` operation: bump every existing note's order
by one (`note.order = (note.order || 0) + 1`), give the new note order `0`,
prepend it (`unshift`) and persist.  DOM updates and the focus timer have no
model-visible effect. -/
def addNote (newId newCreatedAt : String) (s : AppState) : AppState :=
  let bumped := s.notes.map (fun n => { n with order := some (orderD n + 1) })
  saveNotes { s with notes := mkNewNote newId newCreatedAt :: bumped }

/-- A sequence of `insertAtTop` calls, oldest first. -/
def addNotes (ps : List (String × String)) (s : AppState) : AppState :=
  ps.foldl (fun st p => addNote p.1 p.2 st) s

/-- The ascending rendering order of `renderNotes`:
comparator `(a, b) => (a.order || 0) - (b.order || 0)`. -/
def ordLe (a b : Note) : Prop := orderD a ≤ orderD b

instance : DecidableRel ordLe :=
  fun a b => inferInstanceAs (Decidable (orderD a ≤ orderD b))

instance : IsTotal Note ordLe := ⟨fun a b => le_total (orderD a) (orderD b)⟩

instance : IsTrans Note ordLe := ⟨fun _ _ _ h h' => le_trans h h'⟩

/-- The sorted copy `[...this.notes].sort(...)` taken by `renderNotes`;
`List.insertionSort` models the stable `Array.prototype.sort`. -/
def sortByOrder (notes : List Note) : List Note := notes.insertionSort ordLe

/-- The descending comparator `(a, b) => b.order - a.order` used by
`moveNoteUp`, on index-tagged notes (`a` may precede `b` when the comparator
is `≤ 0`).  The index tag records the object identity of each candidate. -/
def upRel (a b : Nat × Note) : Prop := orderD b.2 ≤ orderD a.2

instance : DecidableRel upRel :=
  fun a b => inferInstanceAs (Decidable (orderD b.2 ≤ orderD a.2))

instance : IsTotal (Nat × Note) upRel :=
  ⟨fun a b => (le_total (orderD a.2) (orderD b.2)).symm⟩

instance : IsTrans (Nat × Note) upRel := ⟨fun _ _ _ h h' => le_trans h' h⟩

/-- The ascending comparator `(a, b) => a.order - b.order` used by
`moveNoteDown`, on index-tagged notes. -/
def downRel (a b : Nat × Note) : Prop := orderD a.2 ≤ orderD b.2

instance : DecidableRel downRel :=
  fun a b => inferInstanceAs (Decidable (orderD a.2 ≤ orderD b.2))

instance : IsTotal (Nat × Note) downRel :=
  ⟨fun a b => le_total (orderD a.2) (orderD b.2)⟩

instance : IsTrans (Nat × Note) downRel := ⟨fun _ _ _ h h' => le_trans h h'⟩

/-- The note `moveNoteUp` swaps with: filter the collection to the notes with
strictly lesser `order`, sort descending by `order`, take the first
(`sortedNotes[0]`). -/
def upTarget (o : Option Int) (notes : List Note) : Option (Nat × Note) :=
  ((notes.enum.filter (fun p => olt p.2.order o)).insertionSort upRel).head?

/-- The note `moveNoteDown` swaps with: filter to strictly greater `order`,
sort ascending, take the first. -/
def downTarget (o : Option Int) (notes : List Note) : Option (Nat × Note) :=
  ((notes.enum.filter (fun p => olt o p.2.order)).insertionSort downRel).head?

/-- The in-place swap of the two `order` fields
(`note.order = targetNote.order; targetNote.order = tempOrder`), with the two
mutated objects identified by their positions `i` and `j`. -/
def swapOrders (notes : List Note) (i : Nat) (n : Note) (j : Nat) (t : Note) :
    List Note :=
  (notes.set i { n with order := t.order }).set j { t with order := n.order }

/-- `moveNoteUp`: swap the note's order with the nearest strictly-lesser one;
silently do nothing when the id is missing or no such neighbour exists. -/
def moveNoteUp (noteId : String) (s : AppState) : AppState :=
  match findWithIdx (fun n => n.id == noteId) s.notes with
  | none => s
  | some (i, note) =>
      match upTarget note.order s.notes with
      | none => s
      | some (j, target) =>
          saveNotes { s with notes := swapOrders s.notes i note j target }

/-- `moveNoteDown`: swap the note's order with the nearest strictly-greater
one; silently do nothing when the id is missing or no such neighbour exists. -/
def moveNoteDown (noteId : String) (s : AppState) : AppState :=
  match findWithIdx (fun n => n.id == noteId) s.notes with
  | none => s
  | some (i, note) =>
      match downTarget note.order s.notes with
      | none => s
      | some (j, target) =>
          saveNotes { s with notes := swapOrders s.notes i note j target }

/-- `deleteNote`: when the id is present, tear down the three frame-registry
entries of that id (frame removal, observer disconnect and timer clear have no
further model-visible effect), `splice` the note out of the collection, and
persist.  When the id is missing (`findIndex` returns `-1`), do nothing. -/
def deleteNote (noteId : String) (s : AppState) : AppState :=
  match findWithIdx (fun n => n.id == noteId) s.notes with
  | none => s
  | some (i, _) =>
      let m1 := if (mget s.iframeMap noteId).isSome
                then mdel s.iframeMap noteId else s.iframeMap
      let m2 := if (mget s.iframeResizeObservers noteId).isSome
                then mdel s.iframeResizeObservers noteId
                else s.iframeResizeObservers
      let m3 := if (mget s.iframeResizeTimers noteId).isSome
                then mdel s.iframeResizeTimers noteId else s.iframeResizeTimers
      saveNotes { s with notes := s.notes.eraseIdx i, iframeMap := m1,
                         iframeResizeObservers := m2, iframeResizeTimers := m3 }

/-- Mutate the first note matching `p` in place (the JS `find` returns an
object reference which is then field-mutated). -/
def updFirst (p : Note → Bool) (f : Note → Note) : List Note → List Note
  | [] => []
  | n :: ns => if p n then f n :: ns else n :: updFirst p f ns

/-- `updateNoteContent`: set the found note's `content` and persist; a missing
id is a silent no-op. -/
def updateNoteContent (noteId content : String) (s : AppState) : AppState :=
  match s.notes.find? (fun n => n.id == noteId) with
  | none => s
  | some _ =>
      saveNotes { s with
        notes := updFirst (fun n => n.id == noteId)
          (fun n => { n with content := content }) s.notes }

/-- `updateNoteColor`: set the found note's `color` and persist (the DOM class
swap has no model-visible effect); a missing id is a silent no-op. -/
def updateNoteColor (noteId color : String) (s : AppState) : AppState :=
  match s.notes.find? (fun n => n.id == noteId) with
  | none => s
  | some _ =>
      saveNotes { s with
        notes := updFirst (fun n => n.id == noteId)
          (fun n => { n with color := color }) s.notes }

/-- `toggleNoteEdit`: flip the found note's `isEditing` unless the note shows
an iframe (`note.url && note.url.length > 0`); never persists; a missing id is
a silent no-op. -/
def toggleNoteEdit (noteId : String) (s : AppState) : AppState :=
  match s.notes.find? (fun n => n.id == noteId) with
  | none => s
  | some note =>
      if note.url.length > 0 then s
      else
        { s with
          notes := updFirst (fun n => n.id == noteId)
            (fun n => { n with isEditing := !n.isEditing }) s.notes }

/-- `mountIframeForNote`.  `containerPresent` / `wrapperPresent` stand for the
two DOM lookups (`.iframe-container…` and `.closest('.iframe-wrapper')`) whose
failure aborts the function early.  Creating a frame sets its `src` (first
navigation); an existing frame's `src` is reassigned — navigating it again —
only when it differs from `note.url`.  Re-observing replaces the registry's
observer entry by a freshly constructed observer (`nextToken`). -/
def mountIframeForNote (containerPresent wrapperPresent : Bool) (note : Note)
    (s : AppState) : AppState :=
  if !containerPresent then s
  else
    let iframeMap' :=
      match mget s.iframeMap note.id with
      | none =>
          let f : Frame :=
            { name := "sbp-iframe-" ++ note.id, src := note.url, navCount := 1 }
          mset s.iframeMap note.id f
      | some f =>
          if f.src != note.url then
            mset s.iframeMap note.id
              { f with src := note.url, navCount := f.navCount + 1 }
          else s.iframeMap
    if !wrapperPresent then { s with iframeMap := iframeMap' }
    else
      { s with iframeMap := iframeMap',
               iframeResizeObservers :=
                 mset s.iframeResizeObservers note.id s.nextToken,
               nextToken := s.nextToken + 1 }

/-- `askForUrl`: `promptResult` models the `window.prompt` return value
(`none` for a cancelled prompt).  The input is trimmed and, unless it already
starts with `"http"`, prefixed with `"https://"`. -/
def askForUrl (promptResult : Option String) : Option String :=
  match promptResult with
  | none => none
  | some input =>
      let trimmed := jsTrim input
      some (if jsStartsWith trimmed "http" then trimmed
            else "https://" ++ trimmed)

/-- Modelled from the spec: the platform `new URL` constructor together with
the protocol check of `addNoteWithUrl` (`url.protocol` must be `'http:'` or
`'https:'`).  The URL parser itself is a platform primitive outside the
repository; on the strings at issue here acceptance is exactly "carries an
http or https scheme". -/
def passesHttpUrlValidation (s : String) : Bool :=
  jsStartsWith s "http://" || jsStartsWith s "https://"

end StickyBear

namespace StickyBear.Background

/-- An outbound runtime message as built in `background.js` (the fallback
path matches on `action` and `url`, so those are the payload fields). -/
structure Msg where
  action : String
  url : String
deriving DecidableEq, Repr

/-- The relay state of `background.js` (`pendingMessages`, `sidePanelReady`),
extended with `delivered`, the ordered log of messages whose
`chrome.runtime.sendMessage` succeeded. -/
structure Relay where
  pendingMessages : List Msg
  sidePanelReady : Bool
  delivered : List Msg
deriving DecidableEq, Repr

/-- `sendToSidePanel`: when ready, attempt delivery (`ok` tells whether the
`sendMessage` promise resolves); a rejection queues the message and clears the
ready flag.  When not ready, queue directly without attempting delivery. -/
def sendToSidePanel (ok : Msg → Bool) (m : Msg) (r : Relay) : Relay :=
  if r.sidePanelReady then
    if ok m then { r with delivered := r.delivered ++ [m] }
    else { r with pendingMessages := r.pendingMessages ++ [m],
                  sidePanelReady := false }
  else { r with pendingMessages := r.pendingMessages ++ [m] }

/-- One delivery attempt of the `sidepanel-ready` drain loop: a failure
clears the ready flag and re-queues the message; the loop then continues with
the next message either way. -/
def drainOne (ok : Msg → Bool) (r : Relay) (m : Msg) : Relay :=
  if ok m then { r with delivered := r.delivered ++ [m] }
  else { r with sidePanelReady := false,
                pendingMessages := r.pendingMessages ++ [m] }

/-- The `sidepanel-ready` branch of the `chrome.runtime.onMessage` listener:
mark ready, snapshot and clear the queue, then attempt each snapshotted
message in enqueue order. -/
def onSidePanelReady (ok : Msg → Bool) (r : Relay) : Relay :=
  let messagesToSend := r.pendingMessages
  messagesToSend.foldl (drainOne ok)
    { r with sidePanelReady := true, pendingMessages := [] }

end StickyBear.Background

namespace StickyBear.Panel

open StickyBear

/-- The drag-controller state of the side-panel variant
(`src/src/sidepanel/index.js`): the notes array and its persisted copy, plus
the gesture state — `draggedNote` is the id of the dragged DOM element
(`none` between gestures), `draggedIndex` the JS `findIndex` result (`-1`
sentinel), `placeholderPresent` whether the placeholder element is in the
document, and `detachedFromLayout` whether the dragged element is hidden and
absolutely positioned. -/
structure DragState where
  notes : List Note
  stored : List Note
  draggedNote : Option String
  draggedIndex : Int
  placeholderPresent : Bool
  detachedFromLayout : Bool
deriving DecidableEq, Repr

/-- JS `Array.prototype.findIndex` (`-1` when absent). -/
def jsFindIndex (p : Note → Bool) (l : List Note) : Int :=
  match findWithIdx p l with
  | none => -1
  | some im => (im.1 : Int)

/-- The `dragstart` listener: record the dragged element and its logical
index, insert the placeholder, and visually detach the dragged element
(hidden, absolutely positioned) without removing it from the document. -/
def dragstart (noteId : String) (s : DragState) : DragState :=
  { s with draggedNote := some noteId,
           draggedIndex := jsFindIndex (fun n => n.id == noteId) s.notes,
           placeholderPresent := true,
           detachedFromLayout := true }

/-- The `dragend` listener — the cleanup that runs whether or not a drop
happened: restore the dragged element's layout, remove the placeholder if
still present, and reset the drag state.  It never touches `notes`. -/
def dragend (s : DragState) : DragState :=
  if s.draggedNote.isSome then
    { s with detachedFromLayout := false, placeholderPresent := false,
             draggedNote := none, draggedIndex := -1 }
  else s

/-- The `splice(draggedIndex, 1)` / `splice(newIndex, 0, movedNote)` pair of
the drop listener, on in-range indices. -/
def spliceMove (fromIdx toIdx : Nat) (l : List Note) : List Note :=
  match l[fromIdx]? with
  | none => l
  | some x => (l.eraseIdx fromIdx).insertIdx toIdx x

/-- The `drop` listener.  `newIndex` is the count of real note elements
preceding the placeholder (computed from the DOM, taken here as a parameter).
Remove the placeholder, restore the dragged element's layout, and only when
the index changed, splice the note to its new position and persist. -/
def dropGesture (newIndex : Nat) (s : DragState) : DragState :=
  if s.draggedNote.isSome && s.placeholderPresent then
    let s1 := { s with placeholderPresent := false,
                       detachedFromLayout := false }
    if (newIndex : Int) = s1.draggedIndex then s1
    else
      let notes' := spliceMove s1.draggedIndex.toNat newIndex s1.notes
      { s1 with notes := notes', stored := notes' }
  else s

end StickyBear.Panel

/-! ## Concrete fixtures used by scenario theorems and witnesses -/

namespace StickyBear

/-- A sample text note with the given id and order. -/
def sampleNote (i : String) (o : Option Int) : Note :=
  { id := i, content := "", color := "yellow", createdAt := "",
    isEditing := false, url := "", iframeHeight := none, order := o }

/-- The state of a freshly initialised panel with no notes. -/
def emptyState : AppState :=
  { notes := [], iframeMap := [], iframeResizeObservers := [],
    iframeResizeTimers := [], stored := [], nextToken := 0 }

/-- The three-note collection of the spec scenario:
`[{id:"a",order:0},{id:"b",order:1},{id:"c",order:2}]`. -/
def stateABC : AppState :=
  { emptyState with
    notes := [sampleNote "a" (some 0), sampleNote "b" (some 1),
              sampleNote "c" (some 2)] }

/-- A two-note collection with `"a"` on top. -/
def stateAB : AppState :=
  { emptyState with
    notes := [sampleNote "a" (some 0), sampleNote "b" (some 1)] }

/-- A one-note collection holding a negative `order` value (reachable: the
migration leaves numeric orders, negative ones included, untouched). -/
def stateNeg : AppState :=
  { emptyState with notes := [sampleNote "a" (some (-1))] }

/-- A sample URL note. -/
def noteU : Note :=
  { id := "u", content := "", color := "blue", createdAt := "",
    isEditing := false, url := "https://u.example", iframeHeight := some 300,
    order := some 0 }

/-- Sample live frame handles. -/
def frameA : Frame :=
  { name := "sbp-iframe-a", src := "https://a.example", navCount := 1 }

def frameB : Frame :=
  { name := "sbp-iframe-b", src := "https://b.example", navCount := 1 }

/-- A state whose frame registry holds entries for the notes `"a"` and
`"b"`. -/
def stateWithFrames : AppState :=
  { notes := [sampleNote "a" (some 0), sampleNote "b" (some 1)],
    iframeMap := [("a", frameA), ("b", frameB)],
    iframeResizeObservers := [("a", 0), ("b", 1)],
    iframeResizeTimers := [("a", 2), ("b", 3)],
    stored := [], nextToken := 4 }

/-- A quiescent two-note side panel (no gesture in progress). -/
def Panel.panelState : Panel.DragState :=
  { notes := [sampleNote "a" (some 0), sampleNote "b" (some 1)],
    stored := [sampleNote "a" (some 0), sampleNote "b" (some 1)],
    draggedNote := none, draggedIndex := -1,
    placeholderPresent := false, detachedFromLayout := false }

end StickyBear

/-! ## General lemmas about the embedded primitives -/

namespace StickyBear

theorem findWithIdx_eq_none {p : Note → Bool} {l : List Note}
    (h : ∀ n ∈ l, p n = false) : findWithIdx p l = none := by
  induction l with
  | nil => rfl
  | cons n ns ih =>
      have hn := h n (List.mem_cons_self n ns)
      simp [findWithIdx, hn, ih (fun m hm => h m (List.mem_cons_of_mem n hm))]

theorem findWithIdx_eq_some_iff {p : Note → Bool} {l : List Note} {i : Nat}
    {x : Note} :
    findWithIdx p l = some (i, x) ↔
      l[i]? = some x ∧ p x = true ∧
        ∀ k, k < i → ∀ y, l[k]? = some y → p y = false := by
  induction l generalizing i with
  | nil => simp [findWithIdx]
  | cons n ns ih =>
      by_cases hp : p n = true
      · rw [findWithIdx, if_pos hp]
        constructor
        · intro h
          have heq := Option.some.inj h
          obtain ⟨rfl, rfl⟩ : 0 = i ∧ n = x :=
            ⟨congrArg Prod.fst heq, congrArg Prod.snd heq⟩
          exact ⟨by simp, hp, fun k hk => absurd hk (by omega)⟩
        · rintro ⟨h1, h2, h3⟩
          cases i with
          | zero =>
              simp only [List.getElem?_cons_zero, Option.some.injEq] at h1
              subst h1
              rfl
          | succ i' =>
              have h0 := h3 0 (Nat.succ_pos i') n (by simp)
              simp [hp] at h0
      · have hpn : p n = false := by simpa using hp
        rw [findWithIdx, if_neg (by simp [hpn])]
        constructor
        · intro h
          rw [Option.map_eq_some'] at h
          obtain ⟨⟨i', x'⟩, hfind, heq⟩ := h
          obtain ⟨rfl, rfl⟩ : i' + 1 = i ∧ x' = x :=
            ⟨congrArg Prod.fst heq, congrArg Prod.snd heq⟩
          obtain ⟨h1, h2, h3⟩ := ih.mp hfind
          refine ⟨by simpa using h1, h2, ?_⟩
          intro k hk y hy
          cases k with
          | zero =>
              simp only [List.getElem?_cons_zero, Option.some.injEq] at hy
              subst hy
              exact hpn
          | succ k' =>
              rw [List.getElem?_cons_succ] at hy
              exact h3 k' (by omega) y hy
        · rintro ⟨h1, h2, h3⟩
          cases i with
          | zero =>
              simp only [List.getElem?_cons_zero, Option.some.injEq] at h1
              subst h1
              rw [hpn] at h2
              exact Bool.noConfusion h2
          | succ i' =>
              have hfind : findWithIdx p ns = some (i', x) :=
                ih.mpr ⟨by simpa using h1, h2,
                  fun k hk y hy => h3 (k + 1) (by omega) y (by simpa using hy)⟩
              rw [hfind]
              rfl

theorem mget_cons {α : Type} (kv : String × α) (rest : SMap α) (k : String) :
    mget (kv :: rest) k = if kv.1 = k then some kv.2 else mget rest k := by
  by_cases h : kv.1 = k
  · rw [mget, List.find?_cons_of_pos _ (by simpa using h)]
    simp [h]
  · rw [mget, List.find?_cons_of_neg _ (by simpa using h)]
    simp [h, mget]

theorem mset_cons {α : Type} (kv : String × α) (rest : SMap α) (k : String)
    (v : α) :
    mset (kv :: rest) k v =
      if kv.1 = k then (k, v) :: rest else kv :: mset rest k v := by
  simp [mset]

theorem mdel_cons {α : Type} (kv : String × α) (rest : SMap α) (k : String) :
    mdel (kv :: rest) k = if kv.1 = k then mdel rest k else kv :: mdel rest k := by
  by_cases h : kv.1 = k <;> simp [mdel, List.filter_cons, h]

theorem mget_mset_self {α : Type} (m : SMap α) (k : String) (v : α) :
    mget (mset m k v) k = some v := by
  induction m with
  | nil => simp [mset, mget_cons]
  | cons kv rest ih =>
      rw [mset_cons]
      by_cases h : kv.1 = k
      · simp [h, mget_cons]
      · simp [h, mget_cons, ih]

theorem mget_mset_ne {α : Type} (m : SMap α) (k k' : String) (v : α)
    (h : k' ≠ k) : mget (mset m k v) k' = mget m k' := by
  induction m with
  | nil => simp [mset, mget_cons, Ne.symm h, mget]
  | cons kv rest ih =>
      rw [mset_cons]
      by_cases hk : kv.1 = k
      · rw [if_pos hk, mget_cons, mget_cons]
        simp [hk, Ne.symm h]
      · rw [if_neg hk, mget_cons, mget_cons, ih]

theorem mget_mdel_self {α : Type} (m : SMap α) (k : String) :
    mget (mdel m k) k = none := by
  induction m with
  | nil => rfl
  | cons kv rest ih =>
      rw [mdel_cons]
      by_cases h : kv.1 = k
      · simp [h, ih]
      · simp [mget_cons, h, ih]

theorem mget_mdel_ne {α : Type} (m : SMap α) (k k' : String) (h : k' ≠ k) :
    mget (mdel m k) k' = mget m k' := by
  induction m with
  | nil => rfl
  | cons kv rest ih =>
      rw [mdel_cons]
      by_cases hk : kv.1 = k
      · rw [if_pos hk, ih, mget_cons]
        simp [hk, Ne.symm h]
      · rw [if_neg hk, mget_cons, mget_cons, ih]

/-- The head of a stably sorted list is a member minimal for the sort
relation. -/
theorem head_insertionSort_min {α : Type} (r : α → α → Prop) [DecidableRel r]
    [IsTotal α r] [IsTrans α r] {l : List α} {x : α}
    (h : (l.insertionSort r).head? = some x) : x ∈ l ∧ ∀ y ∈ l, r x y := by
  have hperm := List.perm_insertionSort r l
  have hsort := List.sorted_insertionSort r l
  cases hs : l.insertionSort r with
  | nil => rw [hs] at h; exact absurd h (by simp)
  | cons a t =>
      rw [hs] at h hperm hsort
      have hax : a = x := by simpa using h
      subst hax
      obtain ⟨hmin, -⟩ := List.sorted_cons.mp hsort
      refine ⟨hperm.subset (List.mem_cons_self a t), ?_⟩
      intro y hy
      rcases List.mem_cons.mp (hperm.symm.subset hy) with rfl | hyt
      · rcases IsTotal.total (r := r) y y with hr | hr <;> exact hr
      · exact hmin y hyt

theorem jsStartsWith_https_append (t : String) :
    jsStartsWith ("https://" ++ t) "http" = true := rfl

end StickyBear

/-! ## C10 — URL normalization in `askForUrl` -/

namespace StickyBear

/-- C10: for every non-cancelled prompt input, `askForUrl` trims the input
and prefixes `"https://"` exactly when the trimmed text does not start with
`"http"`; every returned string therefore starts with `"http"`, so only the
already-prefixed form reaches the subsequent http/https URL validation, and
the bare domain `"example.com"` becomes `"https://example.com"`, which that
validation accepts. -/
theorem askForUrl_normalizes :
    (∀ input r, askForUrl (some input) = some r →
       (r = if jsStartsWith (jsTrim input) "http" then jsTrim input
            else "https://" ++ jsTrim input) ∧
       jsStartsWith r "http" = true) ∧
    askForUrl none = none ∧
    askForUrl (some "example.com") = some "https://example.com" ∧
    passesHttpUrlValidation "https://example.com" = true := by
  refine ⟨?_, rfl, by decide, by decide⟩
  intro input r h
  simp only [askForUrl, Option.some.injEq] at h
  subst h
  refine ⟨rfl, ?_⟩
  by_cases hs : jsStartsWith (jsTrim input) "http" = true
  · simp [hs]
  · have hs' : jsStartsWith (jsTrim input) "http" = false := by
      simpa using hs
    simp [hs', jsStartsWith_https_append]

/-- Witness for C10 at the concrete input `" example.com "`. -/
theorem askForUrl_normalizes_witness :
    ("https://example.com" =
        if jsStartsWith (jsTrim " example.com ") "http"
        then jsTrim " example.com "
        else "https://" ++ jsTrim " example.com ") ∧
    jsStartsWith "https://example.com" "http" = true :=
  askForUrl_normalizes.1 " example.com " "https://example.com" (by decide)

end StickyBear

/-! ## C4 — the migration step of `loadNotes` -/

namespace StickyBear

theorem migrateNotes_getElem? (l : List Note) (i : Nat) :
    (migrateNotes l)[i]? = (l[i]?).map (fun n =>
      if n.order.isNone then { n with order := some (i : Int) } else n) := by
  simp [migrateNotes, List.getElem?_mapIdx]

theorem migrateNotes_isSome {l : List Note} {n : Note}
    (hn : n ∈ migrateNotes l) : n.order.isNone = false := by
  obtain ⟨i, hi⟩ := List.mem_iff_getElem?.mp hn
  rw [migrateNotes_getElem?, Option.map_eq_some'] at hi
  obtain ⟨m, hm, rfl⟩ := hi
  cases ho : m.order with
  | none => simp [ho]
  | some v => simp [ho]

/-- C4: the migration of `loadNotes` gives every note lacking a numeric
`order` the order equal to its position in the loaded sequence, leaves the
other notes untouched, signals a persist exactly when some note lacked an
order, and is idempotent: a second run changes no order assignment and
signals no persist. -/
theorem migrate_assigns_and_idempotent (notes : List Note) :
    (migrate notes).1.length = notes.length ∧
    (∀ i : Nat, (migrate notes).1[i]? = (notes[i]?).map (fun n =>
        if n.order.isNone then { n with order := some (i : Int) } else n)) ∧
    ((migrate notes).2 = true ↔ ∃ n ∈ notes, n.order.isNone = true) ∧
    migrate (migrate notes).1 = ((migrate notes).1, false) := by
  refine ⟨by simp [migrate, migrateNotes],
    fun i => migrateNotes_getElem? notes i, ?_, ?_⟩
  · simp [migrate, migrateNeedsSave, List.any_eq_true]
  · have hflag : migrateNeedsSave (migrateNotes notes) = false := by
      simp only [migrateNeedsSave, List.any_eq_false]
      intro n hn
      simp [migrateNotes_isSome hn]
    have hfix : migrateNotes (migrateNotes notes) = migrateNotes notes := by
      apply List.ext_getElem?
      intro i
      rw [migrateNotes_getElem?]
      cases hg : (migrateNotes notes)[i]? with
      | none => rfl
      | some m =>
          have hm : m ∈ migrateNotes notes := List.mem_iff_getElem?.mpr ⟨i, hg⟩
          have hns := migrateNotes_isSome hm
          simp only [Option.map_some', Option.some.injEq]
          rw [if_neg (by simp [hns])]
  -- final goal: pair equality
    show (migrateNotes (migrateNotes notes), migrateNeedsSave (migrateNotes notes))
        = (migrateNotes notes, false)
    rw [hfix, hflag]

end StickyBear

/-! ## C6 — a missing note id is a silent no-op -/

namespace StickyBear

/-- C6: every id-taking operation — delete, move up, move down, update
content, update colour, toggle edit — called with an id absent from the
collection leaves the whole app state (notes, frame registry, stored copy)
unchanged. -/
theorem missing_id_is_noop (s : AppState) (noteId content color : String)
    (h : ∀ n ∈ s.notes, (n.id == noteId) = false) :
    deleteNote noteId s = s ∧
    moveNoteUp noteId s = s ∧
    moveNoteDown noteId s = s ∧
    updateNoteContent noteId content s = s ∧
    updateNoteColor noteId color s = s ∧
    toggleNoteEdit noteId s = s := by
  have hfi : findWithIdx (fun n => n.id == noteId) s.notes = none :=
    findWithIdx_eq_none h
  have hfd : s.notes.find? (fun n => n.id == noteId) = none :=
    List.find?_eq_none.mpr (fun x hx => by simp [h x hx])
  refine ⟨?_, ?_, ?_, ?_, ?_, ?_⟩ <;>
    simp [deleteNote, moveNoteUp, moveNoteDown, updateNoteContent,
      updateNoteColor, toggleNoteEdit, hfi, hfd]

/-- Witness for C6: the operations at the absent id `"z"` on the scenario
state. -/
theorem missing_id_is_noop_witness :
    deleteNote "z" stateABC = stateABC ∧
    moveNoteUp "z" stateABC = stateABC ∧
    moveNoteDown "z" stateABC = stateABC ∧
    updateNoteContent "z" "body" stateABC = stateABC ∧
    updateNoteColor "z" "red" stateABC = stateABC ∧
    toggleNoteEdit "z" stateABC = stateABC :=
  missing_id_is_noop stateABC "z" "body" "red" (by decide)

end StickyBear

/-! ## C7 — the background message relay -/

namespace StickyBear.Background

/-- Effect of the `sidepanel-ready` drain loop over any snapshot and start
state: successes are logged in order, failures are re-queued in order, and
the ready flag survives exactly when every delivery succeeded. -/
theorem drain_foldl (ok : Msg → Bool) (ms : List Msg) (acc : Relay) :
    ms.foldl (drainOne ok) acc =
      { pendingMessages := acc.pendingMessages ++ ms.filter (fun m => !ok m),
        sidePanelReady := acc.sidePanelReady && ms.all ok,
        delivered := acc.delivered ++ ms.filter ok } := by
  induction ms generalizing acc with
  | nil => simp
  | cons m ms ih =>
      by_cases h : ok m = true
      · rw [List.foldl_cons, ih]
        simp [drainOne, h]
      · have h' : ok m = false := by simpa using h
        rw [List.foldl_cons, ih]
        simp [drainOne, h']

/-- C7: with the side panel not ready, `sendToSidePanel` only queues (no
delivery attempt), so two sends leave the queue `[m1, m2]`; the
`sidepanel-ready` drain attempts the whole queue in enqueue order, logging
successes in FIFO order, re-queuing exactly the failures (which also clear
the ready flag), and ending with an empty queue when every delivery
succeeds. -/
theorem relay_queues_and_drains (ok : Msg → Bool) (r : Relay) (m1 m2 : Msg)
    (hnr : r.sidePanelReady = false) :
    sendToSidePanel ok m2 (sendToSidePanel ok m1 r) =
      { r with pendingMessages := r.pendingMessages ++ [m1, m2] } ∧
    (onSidePanelReady ok r).delivered =
      r.delivered ++ r.pendingMessages.filter ok ∧
    (onSidePanelReady ok r).pendingMessages =
      r.pendingMessages.filter (fun m => !ok m) ∧
    (onSidePanelReady ok r).sidePanelReady = r.pendingMessages.all ok ∧
    (r.pendingMessages.all ok = true →
      (onSidePanelReady ok r).pendingMessages = []) := by
  refine ⟨?_, ?_, ?_, ?_, ?_⟩
  · simp [sendToSidePanel, hnr]
  · simp [onSidePanelReady, drain_foldl]
  · simp [onSidePanelReady, drain_foldl]
  · simp [onSidePanelReady, drain_foldl]
  · intro hall
    simp only [onSidePanelReady, drain_foldl]
    simp only [List.nil_append]
    rw [List.filter_eq_nil_iff]
    intro a ha
    simp [List.all_eq_true.mp hall a ha]

/-- Witness for C7: two queued messages on a not-ready relay, then a fully
successful drain. -/
theorem relay_queues_and_drains_witness :
    (sendToSidePanel (fun _ => true) { action := "add-url-note", url := "" }
        (sendToSidePanel (fun _ => true) { action := "add-note", url := "" }
          { pendingMessages := [], sidePanelReady := false,
            delivered := [] })).pendingMessages =
      [{ action := "add-note", url := "" },
       { action := "add-url-note", url := "" }] ∧
    (onSidePanelReady (fun _ => true)
        { pendingMessages := [{ action := "add-note", url := "" },
            { action := "add-url-note", url := "" }],
          sidePanelReady := false, delivered := [] }).delivered =
      [{ action := "add-note", url := "" },
       { action := "add-url-note", url := "" }] ∧
    (onSidePanelReady (fun _ => true)
        { pendingMessages := [{ action := "add-note", url := "" },
            { action := "add-url-note", url := "" }],
          sidePanelReady := false, delivered := [] }).pendingMessages = [] := by
  have h1 := relay_queues_and_drains (fun _ => true)
    { pendingMessages := [], sidePanelReady := false, delivered := [] }
    { action := "add-note", url := "" } { action := "add-url-note", url := "" }
    rfl
  have h2 := relay_queues_and_drains (fun _ => true)
    { pendingMessages := [{ action := "add-note", url := "" },
        { action := "add-url-note", url := "" }],
      sidePanelReady := false, delivered := [] }
    { action := "add-note", url := "" } { action := "add-url-note", url := "" }
    rfl
  refine ⟨?_, ?_, h2.2.2.2.2 rfl⟩
  · rw [h1.1]
    rfl
  · rw [h2.2.1]
    rfl

end StickyBear.Background

/-! ## C5 — deleting a note -/

namespace StickyBear

theorem mget_cond_del_self {α : Type} (m : SMap α) (k : String) :
    mget (if (mget m k).isSome then mdel m k else m) k = none := by
  by_cases h : (mget m k).isSome
  · rw [if_pos h]
    exact mget_mdel_self m k
  · rw [if_neg h]
    exact Option.not_isSome_iff_eq_none.mp h

theorem mget_cond_del_ne {α : Type} (m : SMap α) (k k' : String)
    (h : k' ≠ k) :
    mget (if (mget m k).isSome then mdel m k else m) k' = mget m k' := by
  by_cases hs : (mget m k).isSome
  · rw [if_pos hs]
    exact mget_mdel_ne m k k' h
  · rw [if_neg hs]

/-- C5: deleting a present id removes exactly that one note — the collection
becomes the original with position `i` spliced out, so every remaining note
keeps all its fields (in particular its `order` value; no renumbering) — and
removes exactly the three frame-registry entries (frame handle, resize
observer, debounce timer) keyed by that id, leaving every other id's entries
unchanged. -/
theorem deleteNote_removes_exactly (s : AppState) (noteId : String) (i : Nat)
    (n : Note)
    (hf : findWithIdx (fun nt => nt.id == noteId) s.notes = some (i, n)) :
    (deleteNote noteId s).notes = s.notes.eraseIdx i ∧
    (deleteNote noteId s).notes.length + 1 = s.notes.length ∧
    (∀ k : Nat, k < i → (deleteNote noteId s).notes[k]? = s.notes[k]?) ∧
    (∀ k : Nat, i ≤ k → (deleteNote noteId s).notes[k]? = s.notes[k + 1]?) ∧
    mget (deleteNote noteId s).iframeMap noteId = none ∧
    mget (deleteNote noteId s).iframeResizeObservers noteId = none ∧
    mget (deleteNote noteId s).iframeResizeTimers noteId = none ∧
    (∀ k, k ≠ noteId →
      mget (deleteNote noteId s).iframeMap k = mget s.iframeMap k ∧
      mget (deleteNote noteId s).iframeResizeObservers k =
        mget s.iframeResizeObservers k ∧
      mget (deleteNote noteId s).iframeResizeTimers k =
        mget s.iframeResizeTimers k) := by
  have hlt : i < s.notes.length := by
    obtain ⟨h1, -, -⟩ := findWithIdx_eq_some_iff.mp hf
    obtain ⟨hlt, -⟩ := List.getElem?_eq_some.mp h1
    exact hlt
  have hred : deleteNote noteId s =
      saveNotes
        { s with
          notes := s.notes.eraseIdx i,
          iframeMap := (if (mget s.iframeMap noteId).isSome
            then mdel s.iframeMap noteId else s.iframeMap),
          iframeResizeObservers :=
            (if (mget s.iframeResizeObservers noteId).isSome
             then mdel s.iframeResizeObservers noteId
             else s.iframeResizeObservers),
          iframeResizeTimers := (if (mget s.iframeResizeTimers noteId).isSome
            then mdel s.iframeResizeTimers noteId
            else s.iframeResizeTimers) } := by
    simp only [deleteNote, hf]
  rw [hred]
  refine ⟨rfl, ?_, ?_, ?_, mget_cond_del_self _ _, mget_cond_del_self _ _,
    mget_cond_del_self _ _, ?_⟩
  · simp only [saveNotes, List.length_eraseIdx, if_pos hlt]
    omega
  · intro k hk
    simp only [saveNotes, List.getElem?_eraseIdx, if_pos hk]
  · intro k hk
    simp only [saveNotes, List.getElem?_eraseIdx]
    rw [if_neg (by omega)]
  · intro k hk
    exact ⟨mget_cond_del_ne _ _ _ hk, mget_cond_del_ne _ _ _ hk,
      mget_cond_del_ne _ _ _ hk⟩

/-- Witness for C5: deleting note `"a"` from a state whose registry holds
entries for `"a"` and `"b"`. -/
theorem deleteNote_removes_exactly_witness :
    (deleteNote "a" stateWithFrames).notes = stateWithFrames.notes.eraseIdx 0 ∧
    mget (deleteNote "a" stateWithFrames).iframeMap "a" = none ∧
    mget (deleteNote "a" stateWithFrames).iframeResizeObservers "a" = none ∧
    mget (deleteNote "a" stateWithFrames).iframeResizeTimers "a" = none ∧
    mget (deleteNote "a" stateWithFrames).iframeMap "b" =
      mget stateWithFrames.iframeMap "b" := by
  have h := deleteNote_removes_exactly stateWithFrames "a" 0
    (sampleNote "a" (some 0)) (by decide)
  exact ⟨h.1, h.2.2.2.2.1, h.2.2.2.2.2.1, h.2.2.2.2.2.2.1,
    (h.2.2.2.2.2.2.2 "b" (by decide)).1⟩

end StickyBear

/-! ## C9 — mounting twice with an unchanged URL -/

namespace StickyBear

/-- A mount over a frame registry that already holds a handle for `note.id`
whose `src` equals `note.url` leaves `iframeMap` untouched (no new handle, no
`src` reassignment, no navigation). -/
theorem mount_preserves_map (s : AppState) (note : Note) (f : Frame)
    (hg : mget s.iframeMap note.id = some f) (hsrc : f.src = note.url) :
    (mountIframeForNote true true note s).iframeMap = s.iframeMap := by
  simp [mountIframeForNote, hg, hsrc]

/-- After any mount with the DOM present, the registry holds a handle for
`note.id` whose `src` is `note.url`. -/
theorem mount_post (s : AppState) (note : Note) :
    ∃ f : Frame,
      mget (mountIframeForNote true true note s).iframeMap note.id = some f ∧
      f.src = note.url := by
  cases hg : mget s.iframeMap note.id with
  | none =>
      refine ⟨{ name := "sbp-iframe-" ++ note.id, src := note.url,
                navCount := 1 }, ?_, rfl⟩
      simp [mountIframeForNote, hg, mget_mset_self]
  | some f =>
      by_cases hsrc : f.src = note.url
      · refine ⟨f, ?_, hsrc⟩
        simp [mountIframeForNote, hg, hsrc]
      · refine ⟨{ f with src := note.url, navCount := f.navCount + 1 }, ?_, rfl⟩
        simp [mountIframeForNote, hg, hsrc, mget_mset_self]

/-- C9: mounting the same note a second time while its URL is unchanged
creates no second frame handle: the `iframeMap` registry after the second
mount is identical to the one after the first (same size, same handle value
for the id — in particular the same `navCount`, so no reload); moreover any
mount over an already-registered handle whose `src` equals `note.url` leaves
the registry exactly as it was. -/
theorem mount_twice_same_url (s : AppState) (note : Note) :
    (mountIframeForNote true true note
        (mountIframeForNote true true note s)).iframeMap =
      (mountIframeForNote true true note s).iframeMap ∧
    msize (mountIframeForNote true true note
        (mountIframeForNote true true note s)).iframeMap =
      msize (mountIframeForNote true true note s).iframeMap ∧
    (∃ f : Frame,
      mget (mountIframeForNote true true note s).iframeMap note.id = some f ∧
      f.src = note.url) ∧
    (∀ f : Frame, mget s.iframeMap note.id = some f → f.src = note.url →
      (mountIframeForNote true true note s).iframeMap = s.iframeMap) := by
  obtain ⟨f, hgf, hsf⟩ := mount_post s note
  have h1 := mount_preserves_map (mountIframeForNote true true note s) note
    f hgf hsf
  exact ⟨h1, by rw [h1], ⟨f, hgf, hsf⟩,
    fun f hg hsrc => mount_preserves_map s note f hg hsrc⟩

/-- Witness for C9: the second mount of the sample URL note over the state
produced by the first mount. -/
theorem mount_twice_same_url_witness :
    (mountIframeForNote true true noteU
        (mountIframeForNote true true noteU emptyState)).iframeMap =
      (mountIframeForNote true true noteU emptyState).iframeMap := by
  have h := mount_twice_same_url (mountIframeForNote true true noteU emptyState)
    noteU
  exact h.2.2.2
    { name := "sbp-iframe-u", src := "https://u.example", navCount := 1 }
    (by decide) (by decide)

end StickyBear

/-! ## C8 — a cancelled drag commits no reorder -/

namespace StickyBear.Panel

open StickyBear

/-- C8: a drag gesture that ends without a drop (`dragend` with no preceding
`drop`) performs the same visual cleanup as the drop path at the unchanged
index — placeholder removed, dragged element's layout restored, drag state
reset — and commits no reorder: the note collection and its persisted copy
are exactly what they were before the gesture started. -/
theorem drag_cancel_commits_nothing (s : DragState) (noteId : String)
    (j : Nat) (n : Note)
    (hf : findWithIdx (fun nt => nt.id == noteId) s.notes = some (j, n)) :
    (dragend (dragstart noteId s)).notes = s.notes ∧
    (dragend (dragstart noteId s)).stored = s.stored ∧
    (dragend (dragstart noteId s)).placeholderPresent = false ∧
    (dragend (dragstart noteId s)).detachedFromLayout = false ∧
    (dragend (dragstart noteId s)).draggedNote = none ∧
    dragend (dragstart noteId s) =
      dragend (dropGesture j (dragstart noteId s)) := by
  have hidx : jsFindIndex (fun nt => nt.id == noteId) s.notes = (j : Int) := by
    simp [jsFindIndex, hf]
  refine ⟨?_, ?_, ?_, ?_, ?_, ?_⟩ <;>
    simp [dragend, dragstart, dropGesture, hidx]

/-- Witness for C8: cancelling a drag of note `"a"` on the two-note panel. -/
theorem drag_cancel_commits_nothing_witness :
    (dragend (dragstart "a" panelState)).notes = panelState.notes ∧
    dragend (dragstart "a" panelState) =
      dragend (dropGesture 0 (dragstart "a" panelState)) := by
  have h := drag_cancel_commits_nothing panelState "a" 0
    (sampleNote "a" (some 0)) (by decide)
  exact ⟨h.1, h.2.2.2.2.2⟩

end StickyBear.Panel

/-! ## C1 — insertAtTop -/

namespace StickyBear

theorem addNote_preserves_nonneg {s : AppState}
    (h : ∀ n ∈ s.notes, 0 ≤ orderD n) (a b : String) :
    ∀ n ∈ (addNote a b s).notes, 0 ≤ orderD n := by
  intro n hn
  simp only [addNote, saveNotes] at hn
  rcases List.mem_cons.mp hn with rfl | hn
  · simp [mkNewNote, orderD]
  · obtain ⟨m, hm, rfl⟩ := List.mem_map.mp hn
    have hm0 := h m hm
    simp only [orderD, Option.getD_some] at hm0 ⊢
    omega

theorem addNotes_preserves_nonneg {s : AppState}
    (h : ∀ n ∈ s.notes, 0 ≤ orderD n) (ps : List (String × String)) :
    ∀ n ∈ (addNotes ps s).notes, 0 ≤ orderD n := by
  induction ps generalizing s with
  | nil => exact h
  | cons p ps ih =>
      exact ih (addNote_preserves_nonneg h p.1 p.2)

/-- The render sort puts a strictly minimal head first. -/
theorem sortByOrder_head_of_strictMin {x : Note} {rest : List Note}
    (h : ∀ y ∈ rest, orderD x < orderD y) :
    (sortByOrder (x :: rest)).head? = some x := by
  have hperm := List.perm_insertionSort ordLe (x :: rest)
  cases hs : (x :: rest).insertionSort ordLe with
  | nil =>
      rw [hs] at hperm
      have := hperm.length_eq
      simp at this
  | cons a t =>
      obtain ⟨hmem, hall⟩ :=
        head_insertionSort_min ordLe (l := x :: rest) (x := a)
          (by rw [hs]; rfl)
      have hax : a = x := by
        rcases List.mem_cons.mp hmem with rfl | hmemr
        · rfl
        · have h1 : ordLe a x := hall x (List.mem_cons_self _ _)
          have h2 := h a hmemr
          rw [ordLe] at h1
          omega
      rw [sortByOrder, hs, hax]
      rfl

/-- C1 (amended): `insertAtTop` (`addNote`) bumps every existing note's
defaulted order by one, gives the new note order `0`, prepends it and
persists; consequently, for every collection whose defaulted orders are
non-negative — an invariant of every collection this app itself produces,
but not of every in-memory collection, see the counterexample below — after
any sequence of `insertAtTop` calls the most recently inserted note has
order `0`, every other note's order is strictly positive, and the render
sort places the new note first. -/
theorem insertAtTop_spec (s : AppState) (a b : String)
    (ps : List (String × String)) (p : String × String)
    (hnn : ∀ n ∈ s.notes, 0 ≤ orderD n) :
    (addNote a b s).notes =
      mkNewNote a b ::
        s.notes.map (fun n => { n with order := some (orderD n + 1) }) ∧
    (addNote a b s).stored = (addNote a b s).notes ∧
    (∃ rest, (addNotes (ps ++ [p]) s).notes = mkNewNote p.1 p.2 :: rest ∧
      (∀ n ∈ rest, 0 < orderD n) ∧
      (sortByOrder (addNotes (ps ++ [p]) s).notes).head? =
        some (mkNewNote p.1 p.2)) := by
  refine ⟨rfl, rfl, ?_⟩
  have hmid : ∀ n ∈ (addNotes ps s).notes, 0 ≤ orderD n :=
    addNotes_preserves_nonneg hnn ps
  have hsplit : addNotes (ps ++ [p]) s = addNote p.1 p.2 (addNotes ps s) := by
    simp [addNotes, List.foldl_append]
  rw [hsplit]
  have hrest : (addNote p.1 p.2 (addNotes ps s)).notes =
      mkNewNote p.1 p.2 :: (addNotes ps s).notes.map
        (fun n => { n with order := some (orderD n + 1) }) := rfl
  refine ⟨_, hrest, ?_, ?_⟩
  · intro n hn
    obtain ⟨m, hm, rfl⟩ := List.mem_map.mp hn
    have hm0 := hmid m hm
    simp only [orderD, Option.getD_some] at hm0 ⊢
    omega
  · rw [hrest]
    apply sortByOrder_head_of_strictMin
    intro y hy
    obtain ⟨m, hm, rfl⟩ := List.mem_map.mp hy
    have hm0 := hmid m hm
    simp only [mkNewNote, orderD, Option.getD_some] at hm0 ⊢
    omega

/-- C1 counterexample: on the in-memory collection `[{a, order: -1}]` the
claim fails — `addNote` turns the existing order `-1` into `(-1 || 0) + 1 =
0`, which ties the new note's order `0`, so the most recently inserted note
does not have the strictly lowest order value. -/
theorem insertAtTop_cex :
    (addNote "x" "t" stateNeg).notes =
      [mkNewNote "x" "t", { sampleNote "a" (some (-1)) with order := some 0 }] ∧
    ¬ (∀ n ∈ (addNote "x" "t" stateNeg).notes,
        n = mkNewNote "x" "t" ∨ orderD (mkNewNote "x" "t") < orderD n) :=
  ⟨by decide, by decide⟩

/-- Witness for C1: two consecutive inserts into the empty panel. -/
theorem insertAtTop_spec_witness :
    ∃ rest,
      (addNotes ([("x", "tx")] ++ [("y", "ty")]) emptyState).notes =
        mkNewNote "y" "ty" :: rest ∧
      (∀ n ∈ rest, 0 < orderD n) ∧
      (sortByOrder
          (addNotes ([("x", "tx")] ++ [("y", "ty")]) emptyState).notes).head? =
        some (mkNewNote "y" "ty") :=
  (insertAtTop_spec emptyState "a" "b" [("x", "tx")] ("y", "ty")
    (by decide)).2.2

end StickyBear

/-! ## C2 — moveUp / moveDown swap with the nearest neighbour -/

namespace StickyBear

theorem upTarget_spec {o : Option Int} {notes : List Note} {j : Nat}
    {t : Note} (h : upTarget o notes = some (j, t)) :
    notes[j]? = some t ∧ olt t.order o = true ∧
      ∀ m ∈ notes, olt m.order o = true → orderD m ≤ orderD t := by
  rw [upTarget] at h
  obtain ⟨hmem, hall⟩ := head_insertionSort_min upRel h
  rw [List.mem_filter] at hmem
  obtain ⟨henum, holt⟩ := hmem
  refine ⟨List.mem_enum_iff_getElem?.mp henum, holt, ?_⟩
  intro m hm hlt
  obtain ⟨k, hk⟩ := List.mem_iff_getElem?.mp hm
  have hkmem : (k, m) ∈ notes.enum.filter (fun p => olt p.2.order o) :=
    List.mem_filter.mpr ⟨List.mem_enum_iff_getElem?.mpr hk, hlt⟩
  exact hall (k, m) hkmem

theorem downTarget_spec {o : Option Int} {notes : List Note} {j : Nat}
    {t : Note} (h : downTarget o notes = some (j, t)) :
    notes[j]? = some t ∧ olt o t.order = true ∧
      ∀ m ∈ notes, olt o m.order = true → orderD t ≤ orderD m := by
  rw [downTarget] at h
  obtain ⟨hmem, hall⟩ := head_insertionSort_min downRel h
  rw [List.mem_filter] at hmem
  obtain ⟨henum, holt⟩ := hmem
  refine ⟨List.mem_enum_iff_getElem?.mp henum, holt, ?_⟩
  intro m hm hlt
  obtain ⟨k, hk⟩ := List.mem_iff_getElem?.mp hm
  have hkmem : (k, m) ∈ notes.enum.filter (fun p => olt o p.2.order) :=
    List.mem_filter.mpr ⟨List.mem_enum_iff_getElem?.mpr hk, hlt⟩
  exact hall (k, m) hkmem

theorem upTarget_isSome {o : Option Int} {notes : List Note} {m : Note}
    (hm : m ∈ notes) (holt : olt m.order o = true) :
    ∃ j t, upTarget o notes = some (j, t) := by
  obtain ⟨k, hk⟩ := List.mem_iff_getElem?.mp hm
  have hkmem : (k, m) ∈ notes.enum.filter (fun p => olt p.2.order o) :=
    List.mem_filter.mpr ⟨List.mem_enum_iff_getElem?.mpr hk, holt⟩
  have hperm := List.perm_insertionSort upRel
    (notes.enum.filter (fun p => olt p.2.order o))
  cases hs : (notes.enum.filter
      (fun p => olt p.2.order o)).insertionSort upRel with
  | nil =>
      rw [hs] at hperm
      rw [← hperm.mem_iff] at hkmem
      exact absurd hkmem (List.not_mem_nil _)
  | cons a t' => exact ⟨a.1, a.2, by rw [upTarget, hs]; rfl⟩

theorem downTarget_isSome {o : Option Int} {notes : List Note} {m : Note}
    (hm : m ∈ notes) (holt : olt o m.order = true) :
    ∃ j t, downTarget o notes = some (j, t) := by
  obtain ⟨k, hk⟩ := List.mem_iff_getElem?.mp hm
  have hkmem : (k, m) ∈ notes.enum.filter (fun p => olt o p.2.order) :=
    List.mem_filter.mpr ⟨List.mem_enum_iff_getElem?.mpr hk, holt⟩
  have hperm := List.perm_insertionSort downRel
    (notes.enum.filter (fun p => olt o p.2.order))
  cases hs : (notes.enum.filter
      (fun p => olt o p.2.order)).insertionSort downRel with
  | nil =>
      rw [hs] at hperm
      rw [← hperm.mem_iff] at hkmem
      exact absurd hkmem (List.not_mem_nil _)
  | cons a t' => exact ⟨a.1, a.2, by rw [downTarget, hs]; rfl⟩

theorem upTarget_eq_none {o : Option Int} {notes : List Note}
    (h : ∀ m ∈ notes, olt m.order o = false) : upTarget o notes = none := by
  have hnil : notes.enum.filter (fun p => olt p.2.order o) = [] := by
    rw [List.filter_eq_nil_iff]
    intro p hp
    have hpm : p.2 ∈ notes :=
      List.mem_iff_getElem?.mpr ⟨p.1, List.mem_enum_iff_getElem?.mp hp⟩
    simp [h p.2 hpm]
  rw [upTarget, hnil]
  rfl

theorem downTarget_eq_none {o : Option Int} {notes : List Note}
    (h : ∀ m ∈ notes, olt o m.order = false) : downTarget o notes = none := by
  have hnil : notes.enum.filter (fun p => olt o p.2.order) = [] := by
    rw [List.filter_eq_nil_iff]
    intro p hp
    have hpm : p.2 ∈ notes :=
      List.mem_iff_getElem?.mpr ⟨p.1, List.mem_enum_iff_getElem?.mp hp⟩
    simp [h p.2 hpm]
  rw [downTarget, hnil]
  rfl

/-- C2: for a present note id, `moveNoteUp` is a no-op when no note has a
strictly lesser defined `order`; otherwise it swaps the two `order` fields of
the found note and of a nearest strictly-lesser note — one of maximal `order`
among the strictly lesser ones.  Symmetrically `moveNoteDown` swaps with a
nearest strictly-greater note (minimal among the strictly greater ones).
On the scenario collection `[a:0, b:1, c:2]`, `moveDown("a")` yields
`a:1, b:0, c:2`. -/
theorem moveNote_swaps_nearest (s : AppState) (noteId : String) (i : Nat)
    (nt : Note)
    (hf : findWithIdx (fun m => m.id == noteId) s.notes = some (i, nt)) :
    ((∀ m ∈ s.notes, olt m.order nt.order = false) →
        moveNoteUp noteId s = s) ∧
    ((∃ m ∈ s.notes, olt m.order nt.order = true) → ∃ j t,
        s.notes[j]? = some t ∧ olt t.order nt.order = true ∧
        (∀ m ∈ s.notes, olt m.order nt.order = true →
          orderD m ≤ orderD t) ∧
        (moveNoteUp noteId s).notes = swapOrders s.notes i nt j t) ∧
    ((∀ m ∈ s.notes, olt nt.order m.order = false) →
        moveNoteDown noteId s = s) ∧
    ((∃ m ∈ s.notes, olt nt.order m.order = true) → ∃ j t,
        s.notes[j]? = some t ∧ olt nt.order t.order = true ∧
        (∀ m ∈ s.notes, olt nt.order m.order = true →
          orderD t ≤ orderD m) ∧
        (moveNoteDown noteId s).notes = swapOrders s.notes i nt j t) ∧
    (moveNoteDown "a" stateABC).notes =
      [sampleNote "a" (some 1), sampleNote "b" (some 0),
       sampleNote "c" (some 2)] := by
  refine ⟨?_, ?_, ?_, ?_, by decide⟩
  · intro h
    simp [moveNoteUp, hf, upTarget_eq_none h]
  · rintro ⟨m, hm, holt⟩
    obtain ⟨j, t, hup⟩ := upTarget_isSome hm holt
    obtain ⟨hjt, hto, hmax⟩ := upTarget_spec hup
    exact ⟨j, t, hjt, hto, hmax, by simp [moveNoteUp, hf, hup, saveNotes]⟩
  · intro h
    simp [moveNoteDown, hf, downTarget_eq_none h]
  · rintro ⟨m, hm, holt⟩
    obtain ⟨j, t, hdn⟩ := downTarget_isSome hm holt
    obtain ⟨hjt, hto, hmin⟩ := downTarget_spec hdn
    exact ⟨j, t, hjt, hto, hmin, by simp [moveNoteDown, hf, hdn, saveNotes]⟩

/-- Witness for C2: `moveDown("a")` on the scenario collection. -/
theorem moveNote_swaps_nearest_witness :
    (moveNoteDown "a" stateABC).notes =
      [sampleNote "a" (some 1), sampleNote "b" (some 0),
       sampleNote "c" (some 2)] ∧
    (∃ j t, stateABC.notes[j]? = some t ∧
      olt (sampleNote "a" (some 0)).order t.order = true ∧
      (∀ m ∈ stateABC.notes,
        olt (sampleNote "a" (some 0)).order m.order = true →
          orderD t ≤ orderD m) ∧
      (moveNoteDown "a" stateABC).notes =
        swapOrders stateABC.notes 0 (sampleNote "a" (some 0)) j t) := by
  have h := moveNote_swaps_nearest stateABC "a" 0 (sampleNote "a" (some 0))
    (by decide)
  exact ⟨h.2.2.2.2,
    h.2.2.2.1 ⟨sampleNote "b" (some 1), by decide, by decide⟩⟩

end StickyBear

/-! ## C3 — moveUp then moveDown -/

namespace StickyBear

/-- Two positions holding notes with the same defined `order` coincide when
the defined orders are pairwise distinct. -/
theorem nodup_order_idx {l : List Note}
    (hnd : (l.filterMap Note.order).Nodup) {k1 k2 : Nat} {m1 m2 : Note}
    {o : Int} (h1 : l[k1]? = some m1) (h2 : l[k2]? = some m2)
    (ho1 : m1.order = some o) (ho2 : m2.order = some o) : k1 = k2 := by
  induction l generalizing k1 k2 with
  | nil => simp at h1
  | cons x xs ih =>
      have hnd' : (xs.filterMap Note.order).Nodup := by
        cases hx : x.order with
        | none => simpa [List.filterMap_cons, hx] using hnd
        | some v =>
            rw [List.filterMap_cons, hx] at hnd
            exact (List.nodup_cons.mp hnd).2
      cases k1 with
      | zero =>
          simp only [List.getElem?_cons_zero, Option.some.injEq] at h1
          subst h1
          cases k2 with
          | zero => rfl
          | succ k2' =>
              exfalso
              rw [List.getElem?_cons_succ] at h2
              have hm2 : m2 ∈ xs := List.mem_iff_getElem?.mpr ⟨k2', h2⟩
              have homem : o ∈ xs.filterMap Note.order :=
                List.mem_filterMap.mpr ⟨m2, hm2, ho2⟩
              rw [List.filterMap_cons, ho1] at hnd
              exact (List.nodup_cons.mp hnd).1 homem
      | succ k1' =>
          cases k2 with
          | zero =>
              exfalso
              simp only [List.getElem?_cons_zero, Option.some.injEq] at h2
              subst h2
              rw [List.getElem?_cons_succ] at h1
              have hm1 : m1 ∈ xs := List.mem_iff_getElem?.mpr ⟨k1', h1⟩
              have homem : o ∈ xs.filterMap Note.order :=
                List.mem_filterMap.mpr ⟨m1, hm1, ho1⟩
              rw [List.filterMap_cons, ho2] at hnd
              exact (List.nodup_cons.mp hnd).1 homem
          | succ k2' =>
              rw [List.getElem?_cons_succ] at h1 h2
              have := ih hnd' h1 h2
              omega

/-- Pointwise description of `swapOrders` at distinct in-range positions. -/
theorem swapOrders_getElem? {notes : List Note} {i j : Nat} {nt t : Note}
    (hij : i ≠ j) (hi : notes[i]? = some nt) (hj : notes[j]? = some t)
    (k : Nat) :
    (swapOrders notes i nt j t)[k]? =
      if k = i then some { nt with order := t.order }
      else if k = j then some { t with order := nt.order }
      else notes[k]? := by
  obtain ⟨hiL, -⟩ := List.getElem?_eq_some.mp hi
  obtain ⟨hjL, -⟩ := List.getElem?_eq_some.mp hj
  simp only [swapOrders, List.getElem?_set, List.length_set]
  rcases eq_or_ne k i with rfl | hki
  · rw [if_neg (show ¬ j = k by omega), if_pos rfl, if_pos hiL, if_pos rfl]
  · rcases eq_or_ne k j with rfl | hkj
    · rw [if_pos rfl, if_pos hjL, if_neg hki, if_pos rfl]
    · rw [if_neg (show ¬ j = k by omega), if_neg (show ¬ i = k by omega),
        if_neg hki, if_neg hkj]

/-- `downTarget` returns the unique minimal candidate when every other
candidate is strictly greater. -/
theorem downTarget_eq_of_min {o : Option Int} {notes : List Note} {j : Nat}
    {t : Note} (hmem : notes[j]? = some t) (holt : olt o t.order = true)
    (huniq : ∀ k m, notes[k]? = some m → olt o m.order = true →
      (k = j ∧ m = t) ∨ orderD t < orderD m) :
    downTarget o notes = some (j, t) := by
  obtain ⟨j', t', hdn⟩ :=
    downTarget_isSome (List.mem_iff_getElem?.mpr ⟨j, hmem⟩) holt
  obtain ⟨hjt', holt', hmin⟩ := downTarget_spec hdn
  rcases huniq j' t' hjt' holt' with ⟨rfl, rfl⟩ | hgt
  · exact hdn
  · have hle := hmin t (List.mem_iff_getElem?.mpr ⟨j, hmem⟩) holt
    omega

/-- C3 (amended): when all defined `order` values are pairwise distinct and
the note has a strictly-lesser neighbour (so `moveUp` actually swaps),
`moveNoteUp` followed immediately by `moveNoteDown` on the same id restores
every note's original `order` value.  (Without the swap the sequence need not
preserve the collection — see the counterexample — and with duplicate orders
`moveDown` may pick a different note than the one `moveUp` swapped with.) -/
theorem moveUp_then_moveDown_restores (s : AppState) (noteId : String)
    (i : Nat) (nt : Note)
    (hnd : (s.notes.filterMap Note.order).Nodup)
    (hf : findWithIdx (fun m => m.id == noteId) s.notes = some (i, nt))
    (hmoved : ∃ m ∈ s.notes, olt m.order nt.order = true) :
    (moveNoteDown noteId (moveNoteUp noteId s)).notes = s.notes := by
  obtain ⟨m0, hm0, holt0⟩ := hmoved
  obtain ⟨j, t, hup⟩ := upTarget_isSome hm0 holt0
  obtain ⟨hjt, hto, hmax⟩ := upTarget_spec hup
  obtain ⟨h1, h2, h3⟩ := findWithIdx_eq_some_iff.mp hf
  -- the two swapped order values
  rcases hto_def : t.order with _ | tOrd
  · rw [hto_def] at hto
    simp [olt] at hto
  rcases hno_def : nt.order with _ | nOrd
  · rw [hto_def, hno_def] at hto
    simp [olt] at hto
  have htolt : tOrd < nOrd := by
    rw [hto_def, hno_def] at hto
    simpa [olt] using hto
  have hij : i ≠ j := by
    rintro rfl
    rw [h1] at hjt
    have : nt = t := by simpa using hjt
    rw [this, hto_def] at hno_def
    have : tOrd = nOrd := by simpa using hno_def
    omega
  have hup_state : moveNoteUp noteId s =
      saveNotes { s with notes := swapOrders s.notes i nt j t } := by
    simp [moveNoteUp, hf, hup]
  -- positions in the swapped list
  have hsw_i : (swapOrders s.notes i nt j t)[i]? =
      some { nt with order := t.order } := by
    rw [swapOrders_getElem? hij h1 hjt i, if_pos rfl]
  have hsw_j : (swapOrders s.notes i nt j t)[j]? =
      some { t with order := nt.order } := by
    rw [swapOrders_getElem? hij h1 hjt j, if_neg (Ne.symm hij), if_pos rfl]
  -- the same note is found again, with its order swapped down
  have hf1 : findWithIdx (fun m => m.id == noteId)
      (swapOrders s.notes i nt j t) = some (i, { nt with order := t.order }) := by
    rw [findWithIdx_eq_some_iff]
    refine ⟨hsw_i, h2, ?_⟩
    intro k hk y hy
    rw [swapOrders_getElem? hij h1 hjt k] at hy
    rcases eq_or_ne k i with rfl | hki
    · omega
    · rcases eq_or_ne k j with rfl | hkj
      · rw [if_neg hki, if_pos rfl] at hy
        have hyt : { t with order := nt.order } = y := by simpa using hy
        rw [← hyt]
        exact h3 k hk t hjt
      · rw [if_neg hki, if_neg hkj] at hy
        exact h3 k hk y hy
  -- moveDown now targets exactly the note moveUp swapped with
  have hdt : downTarget t.order (swapOrders s.notes i nt j t) =
      some (j, { t with order := nt.order }) := by
    rw [hto_def]
    apply downTarget_eq_of_min
    · exact hsw_j
    · simp [olt, hno_def, htolt]
    · intro k m hkm holtm
      rw [swapOrders_getElem? hij h1 hjt k] at hkm
      rcases eq_or_ne k i with rfl | hki
      · rw [if_pos rfl] at hkm
        have hm : { nt with order := t.order } = m := by simpa using hkm
        rw [← hm, hto_def] at holtm
        simp [olt] at holtm
      · rcases eq_or_ne k j with rfl | hkj
        · rw [if_neg hki, if_pos rfl] at hkm
          have hm : { t with order := nt.order } = m := by simpa using hkm
          exact Or.inl ⟨rfl, hm.symm⟩
        · rw [if_neg hki, if_neg hkj] at hkm
          right
          have hmmem : m ∈ s.notes := List.mem_iff_getElem?.mpr ⟨k, hkm⟩
          rcases hmo_def : m.order with _ | mo
          · rw [hmo_def] at holtm
            simp [olt] at holtm
          have htomo : tOrd < mo := by
            rw [hmo_def] at holtm
            simpa [olt] using holtm
          rcases lt_trichotomy mo nOrd with hlt | heq | hgt
          · have hle := hmax m hmmem
              (by simp [olt, hmo_def, hno_def, hlt])
            rw [orderD, orderD, hmo_def, hto_def] at hle
            simp at hle
            omega
          · exfalso
            apply hki
            exact nodup_order_idx hnd hkm h1 (hmo_def.trans (by rw [heq]))
              hno_def
          · rw [orderD, orderD, hno_def, hmo_def]
            simpa using hgt
  -- assemble the second move
  have hs2 : (moveNoteDown noteId (moveNoteUp noteId s)).notes =
      swapOrders (swapOrders s.notes i nt j t) i
        { nt with order := t.order } j { t with order := nt.order } := by
    rw [hup_state]
    simp only [moveNoteDown, saveNotes, hf1, hdt]
  rw [hs2]
  apply List.ext_getElem?
  intro k
  rw [swapOrders_getElem? hij hsw_i hsw_j k]
  rcases eq_or_ne k i with rfl | hki
  · rw [if_pos rfl, h1]
  · rcases eq_or_ne k j with rfl | hkj
    · rw [if_neg hki, if_pos rfl, hjt]
    · rw [if_neg hki, if_neg hkj, swapOrders_getElem? hij h1 hjt k,
        if_neg hki, if_neg hkj]

/-- C3 counterexample: on the collection `[a:0, b:1]`, `moveUp("a")` is a
no-op (the note has no strictly-lesser neighbour), yet the following
`moveDown("a")` still swaps `a` downward, so `moveUp` followed by `moveDown`
yields `[a:1, b:0]` instead of restoring the original orders — refuting both
the general restoration claim and the claim that the collection is unchanged
when `moveUp` was a no-op. -/
theorem moveUp_then_moveDown_cex :
    moveNoteUp "a" stateAB = stateAB ∧
    (moveNoteDown "a" (moveNoteUp "a" stateAB)).notes ≠ stateAB.notes ∧
    (moveNoteDown "a" (moveNoteUp "a" stateAB)).notes =
      [sampleNote "a" (some 1), sampleNote "b" (some 0)] :=
  ⟨by decide, by decide, by decide⟩

/-- Witness for the amended C3: moving `"b"` up and then down on
`[a:0, b:1]` restores the collection. -/
theorem moveUp_then_moveDown_restores_witness :
    (moveNoteDown "b" (moveNoteUp "b" stateAB)).notes = stateAB.notes :=
  moveUp_then_moveDown_restores stateAB "b" 1 (sampleNote "b" (some 1))
    (by decide) (by decide)
    ⟨sampleNote "a" (some 0), by decide, by decide⟩

end StickyBear
